import Mathlib

/-!
Verification of the ClinTwin adaptive medicine-identification engine and its
React frontend against the natural-language specification.

The frontend code (`LanguageProvider`, `jsonFetch`, the API helpers and the
`QuestionInterface` component) is embedded directly from the TypeScript
sources.  The backend engine (`pill_akinator.py`) is not part of the source
snapshot — only its README description, its HTTP callers and the response
types are — so the engine (scorer, session state machine, termination and
ranking policy, session store) is modelled from the specification, as noted
on each such definition.
-/

namespace ClinTwin

/-! ## Frontend: language provider (src/unnamed/part_002, LanguageProvider) -/

/-- The `Language` union type `'en' | 'ar'` of `translations.ts`. -/
inductive Language where
  | en
  | ar
deriving DecidableEq, Repr

/-- Embeds the `useState` initializer of `LanguageProvider`:
`const saved = localStorage.getItem('selectedLanguage');
 return (saved === 'ar' || saved === 'en') ? saved : 'en';`.
`none` models `localStorage.getItem` returning `null`. -/
def initLanguage (saved : Option String) : Language :=
  if saved = some "ar" then Language.ar
  else if saved = some "en" then Language.en
  else Language.en

/-- Embeds the provided context value `dir: language === 'ar' ? 'rtl' : 'ltr'`. -/
def dirOf (lang : Language) : String :=
  if lang = Language.ar then "rtl" else "ltr"

/-! ## Frontend: `jsonFetch` and the API helpers (src/frontend/src/lib/translations.ts) -/

/-- The fields of a `fetch` `Response` that `jsonFetch` inspects: `ok`,
`status`, `statusText` and the body text returned by `res.text()`. -/
structure HttpResponse where
  ok : Bool
  status : Nat
  statusText : String
  body : String

/-- Outcome of a promise-returning helper: resolved with a value, or
rejected with an error message. -/
inductive FetchOutcome (α : Type) where
  | resolved (value : α)
  | rejected (message : String)
deriving DecidableEq, Repr

/-- The error message built by `jsonFetch` on a non-ok response:
`` `Request failed: ${res.status} ${res.statusText}${text ? ` - ${text}` : ""}` ``. -/
def requestFailedMessage (res : HttpResponse) : String :=
  "Request failed: " ++ toString res.status ++ " " ++ res.statusText ++
    (if res.body = "" then "" else " - " ++ res.body)

/-- Embeds `jsonFetch`: on `res.ok` it resolves with `res.json()` (modelled by
the JSON decoder `parse`, rejecting when the body is not valid JSON for the
expected type), otherwise it rejects with the `Request failed` error. -/
def jsonFetch {α : Type} (parse : String → Option α) (res : HttpResponse) :
    FetchOutcome α :=
  if res.ok then
    match parse res.body with
    | some v => FetchOutcome.resolved v
    | none => FetchOutcome.rejected "SyntaxError: unexpected token in JSON"
  else
    FetchOutcome.rejected (requestFailedMessage res)

/-- `sub` occurs as a contiguous substring of `s`. -/
def containsSub (s sub : String) : Prop :=
  ∃ a b : String, s = a ++ sub ++ b

/-! ## Frontend: `QuestionInterface` (src/unnamed/part_000) -/

/-- The question shape consumed by `QuestionInterface`:
`type Question = { question_text: string; options: string[] }`. -/
structure FrontQuestion where
  question_text : String
  options : List String
deriving DecidableEq, Repr

/-- The request body sent by `submitAkinatorAnswer`:
`JSON.stringify({ session_id: sessionId, answer })` — exactly these two
fields. -/
structure AnswerBody where
  session_id : String
  answer : String
deriving DecidableEq, Repr

/-- The component state of `QuestionInterface` relevant to answering:
`sessionId`, `question`, `selected` and `questionsAsked`. -/
structure QIState where
  sessionId : Option String
  question : Option FrontQuestion
  selected : Option String
  questionsAsked : Nat
deriving DecidableEq, Repr

/-- The request, if any, issued by `handleNext`:
`if (!sessionId || !selected) return;` then
`submitAkinatorAnswer(sessionId, selected)` with body
`{session_id, answer}`. -/
def handleNextRequest (s : QIState) : Option AnswerBody :=
  match s.sessionId, s.selected with
  | some sid, some sel => some ⟨sid, sel⟩
  | _, _ => none

/-- The `/api/akinator/answer` response as discriminated by `res.type` in
`handleNext`; `other` covers any payload whose `type` is neither
`"question"` nor `"result"`. -/
inductive AnswerResponse (ρ : Type) where
  | question (q : FrontQuestion) (asked : Nat)
  | result (payload : ρ)
  | other (ty : String)

/-- The action `handleNext` takes on a response. -/
inductive NextAction (ρ : Type) where
  | show (s : QIState)
  | navigateToResult (payload : ρ)
  | alertUnexpected

/-- Embeds the response dispatch of `handleNext`: a `"question"` response
updates the shown question, step count and clears the selection; a
`"result"` response navigates to the results page with the payload; anything
else raises the `Unexpected response` alert. -/
def handleResponse {ρ : Type} (s : QIState) :
    AnswerResponse ρ → NextAction ρ
  | AnswerResponse.question q asked =>
      NextAction.show { s with question := some q, questionsAsked := asked,
                               selected := none }
  | AnswerResponse.result p => NextAction.navigateToResult p
  | AnswerResponse.other _ => NextAction.alertUnexpected

/-- User-interface events that mutate `QIState`:
* `bootLoaded` — the `startAkinator` call in the `boot` effect resolves;
  the effect only fetches when `!initialSessionId || !initialQuestion`;
* `clickOption` — the user clicks one of the rendered option buttons
  (buttons exist exactly for `question.options`);
* `questionReceived` — a `"question"` response to `handleNext` arrives;
  `handleNext` only runs when both `sessionId` and `selected` are present. -/
inductive QIEvent where
  | bootLoaded (sid : String) (q : FrontQuestion) (asked : Nat)
  | clickOption (o : String)
  | questionReceived (q : FrontQuestion) (asked : Nat)

/-- One state transition of `QuestionInterface`. -/
def qiStep (s : QIState) : QIEvent → QIState
  | QIEvent.bootLoaded sid q asked =>
      if s.sessionId = none ∨ s.question = none then
        { s with sessionId := some sid, question := some q,
                 questionsAsked := asked }
      else s
  | QIEvent.clickOption o =>
      match s.question with
      | some q => if o ∈ q.options then { s with selected := some o } else s
      | none => s
  | QIEvent.questionReceived q asked =>
      match s.sessionId, s.selected with
      | some _, some _ =>
          { s with question := some q, questionsAsked := asked,
                   selected := none }
      | _, _ => s

/-- A run of the component from an initial state through a list of events. -/
def qiRun (s : QIState) (evs : List QIEvent) : QIState :=
  evs.foldl qiStep s

/-! ## Engine data model

Modelled from the spec: the backend service `pill_akinator.py` is absent from
the snapshot, so the data model of §3 is embedded from the specification's
words. -/

/-- Modelled from the spec: a `MedicineRecord` (§3) — `id`, `name`, and a
mapping `attribute_name → attribute_value`; immutable, never mutated by the
engine.  The further free-text fields play no role in the claims. -/
structure MedicineRecord where
  id : String
  name : String
  attrs : List (String × String)
deriving DecidableEq, Repr

/-- The value a record declares for an attribute, `none` when the record
lacks the attribute. -/
def attrValue (m : MedicineRecord) (a : String) : Option String :=
  (m.attrs.find? (fun p => p.1 = a)).map Prod.snd

/-! ## Discrimination Scorer

Modelled from the spec (§4.1): partition the candidates by each unused
attribute's value (with a group for "value absent"), score
`gain = log2 n − Σ (n_i/n)·log2 n_i`, select the maximum-gain attribute with
first-in-declared-order tie-break, and return `none` when `n ≤ 1`, when no
attribute is unused, or when no unused attribute has positive gain.

To keep the scorer executable the comparison of gains is done on the
integer weight `Π n_i ^ n_i`: since `Σ n_i·log2 n_i = log2 (Π n_i ^ n_i)`
and `log2` is strictly increasing, for partitions of the same candidate set
`gain a > gain b ↔ weight a < weight b` and `gain a > 0 ↔ weight a < n^n`.
This equivalence is proved below (`realGain_lt_iff`, `realGain_pos_iff`),
so the scorer's selections are verified against the spec's real-valued
formula itself. -/

/-- The distinct values observed for attribute `a` among the candidates. -/
def observedValues (cands : List MedicineRecord) (a : String) : List String :=
  (cands.filterMap (fun m => attrValue m a)).dedup

/-- The sizes of the groups of present values: one group per observed
value of attribute `a`. -/
def presentSizes (cands : List MedicineRecord) (a : String) : List Nat :=
  (observedValues cands a).map
    (fun v => (cands.filter (fun m => attrValue m a = some v)).length)

/-- The number of candidates that lack attribute `a` entirely. -/
def absentSize (cands : List MedicineRecord) (a : String) : Nat :=
  (cands.filter (fun m => attrValue m a = none)).length

/-- The sizes of the non-empty groups of the partition of `cands` by the
value of `a`: one group per observed value, and one for the records that
lack the attribute (present only when non-empty). -/
def groupSizes (cands : List MedicineRecord) (a : String) : List Nat :=
  if absentSize cands a = 0 then presentSizes cands a
  else presentSizes cands a ++ [absentSize cands a]

/-- `Π n_i ^ n_i` over a list of group sizes. -/
def weightOf (sizes : List Nat) : Nat :=
  (sizes.map (fun k => k ^ k)).prod

/-- The integer weight of attribute `a`'s partition of `cands`; smaller
weight means larger information gain. -/
def gainWeight (cands : List MedicineRecord) (a : String) : Nat :=
  weightOf (groupSizes cands a)

/-- Modelled from the spec: the real-valued information gain of §4.1,
`gain = log2 n − Σ (n_i/n)·log2 n_i` over the non-empty partition groups. -/
noncomputable def realGain (cands : List MedicineRecord) (a : String) : ℝ :=
  Real.logb 2 cands.length -
    ((groupSizes cands a).map
      (fun k : ℕ => ((k : ℝ) / cands.length) * Real.logb 2 k)).sum

/-- Scans the unused attributes in declared order and keeps the first
attribute attaining the smallest weight among those with weight `< N`
(`N = n^n`, i.e. among the attributes of positive gain): a later attribute
replaces the current best only on a strictly smaller weight, which realises
the spec's first-in-declared-order tie-break. -/
def bestAttr (cands : List MedicineRecord) (N : Nat) :
    List String → Option (String × Nat)
  | [] => none
  | a :: rest =>
    if gainWeight cands a < N then
      match bestAttr cands N rest with
      | some (b, wb) =>
          if wb < gainWeight cands a then some (b, wb)
          else some (a, gainWeight cands a)
      | none => some (a, gainWeight cands a)
    else bestAttr cands N rest

/-- Modelled from the spec: the Discrimination Scorer contract
`score(candidates, unused_attributes) → best_attribute | none` of §4.1. -/
def score (cands : List MedicineRecord) (unused : List String) :
    Option String :=
  if cands.length ≤ 1 then none
  else (bestAttr cands (cands.length ^ cands.length) unused).map Prod.fst

/-! ## Session state machine, termination and ranking

Modelled from the spec (§3, §4.3, §4.4, §6): the backend session service is
absent from the snapshot. -/

/-- The terminal escape option always appended to a question's option list
(README sample: `["Red", "Blue", "White", "Green", "Not sure"]`). -/
def notSure : String := "Not sure"

/-- Modelled from the spec: a `Question` (§3) — `question_id` unique per
emission, `target_attribute`, `prompt_text`, ordered `options` ending in the
"Not sure" escape option. -/
structure Question where
  question_id : String
  target_attribute : String
  prompt_text : String
  options : List String
deriving DecidableEq, Repr

/-- Session lifecycle states (§3). -/
inductive SessionStatus where
  | ACTIVE
  | COMPLETED
  | EXPIRED
deriving DecidableEq, Repr

/-- Modelled from the spec: the frozen ranked result of §4.4 — `success`,
`top_match` (first remaining candidate, or `none` on an empty candidate
set, reported as failure) and the next `N` candidates as `alternatives`,
each with the uniform posterior confidence. -/
structure RankedResult where
  success : Bool
  top_match : Option (MedicineRecord × ℚ)
  alternatives : List (MedicineRecord × ℚ)
deriving DecidableEq, Repr

/-- Configuration surface read at startup (§6): max questions per session,
confidence stop threshold, number of alternatives to return. -/
structure EngineConfig where
  max_questions : Nat
  confidence_threshold : ℚ
  num_alternatives : Nat
deriving DecidableEq, Repr

/-- Modelled from the spec: the mutable `Session` of §3.  `asked_attributes`
records, in emission order, the attributes already used by an emitted
question; `questions_emitted` counts the questions produced by
scorer+phraser cycles; `answers` is the append-only `(question_id,
chosen_option)` history; `result` holds the frozen result once
`COMPLETED`; `next_qid` mints fresh question ids. -/
structure EngineSession where
  candidates : List MedicineRecord
  asked_attributes : List String
  answers : List (String × String)
  confidence : ℚ
  status : SessionStatus
  current_question : Option Question
  questions_emitted : Nat
  result : Option RankedResult
  next_qid : Nat
deriving DecidableEq, Repr

/-- Modelled from the spec: candidate filtering of §4.3 — "Not sure" leaves
the candidates unchanged; otherwise keep exactly the candidates whose value
for the asked attribute equals the chosen option (records lacking the
attribute are dropped). -/
def filterCandidates (cands : List MedicineRecord) (attr chosen : String) :
    List MedicineRecord :=
  if chosen = notSure then cands
  else cands.filter (fun m => attrValue m attr = some chosen)

/-- Modelled from the spec: `confidence = 1/|candidates|` (1.0 when exactly
one candidate remains, 0 only if zero remain) (§4.3). -/
def recomputeConfidence (cands : List MedicineRecord) : ℚ :=
  if cands.length = 0 then 0 else 1 / (cands.length : ℚ)

/-- Modelled from the spec: the deterministic template phrasing provider
(§4.2) — prompt from a fixed template, options covering every observed
value, always appended with a terminal "Not sure" option, and a freshly
minted `question_id`. -/
def phraseQuestion (cands : List MedicineRecord) (a : String) (qid : Nat) :
    Question :=
  { question_id := "q" ++ toString qid
    target_attribute := a
    prompt_text := "What is the " ++ a ++ " of the medicine?"
    options := observedValues cands a ++ [notSure] }

/-- Modelled from the spec: the stop conditions of §4.4, checked in order:
`|candidates| ≤ 1`, `confidence ≥ threshold`, `asked_attributes count ≥
max_questions` (the fourth trigger — scorer returns `none` — is checked by
`advance` where the scorer runs). -/
def stopEarly (cfg : EngineConfig) (s : EngineSession) : Bool :=
  s.candidates.length ≤ 1 ∨ cfg.confidence_threshold ≤ s.confidence ∨
    cfg.max_questions ≤ s.asked_attributes.length

/-- Modelled from the spec: ranking on termination (§4.4) — candidates in
catalog order (genuine ties broken by declaration order), each with uniform
posterior `1/|candidates|`; the first is `top_match`, the next `N` are
`alternatives`; an empty candidate set is reported as a failed result. -/
def rankResult (cfg : EngineConfig) (cands : List MedicineRecord) :
    RankedResult :=
  match cands with
  | [] => { success := false, top_match := none, alternatives := [] }
  | m :: rest =>
    let c := recomputeConfidence (m :: rest)
    { success := true
      top_match := some (m, c)
      alternatives := (rest.take cfg.num_alternatives).map (fun x => (x, c)) }

/-- Modelled from the spec: after an answer is applied (or at start), either
the Termination Policy fires — the result is computed, frozen and the
session transitions to `COMPLETED` — or one scorer+phraser cycle emits the
next question and the session stays `ACTIVE` (§4.3, §4.4).  `attrs` is the
fixed declared attribute order of the catalog. -/
def advance (cfg : EngineConfig) (attrs : List String)
    (s : EngineSession) : EngineSession :=
  if stopEarly cfg s then
    { s with status := SessionStatus.COMPLETED
             current_question := none
             result := some (rankResult cfg s.candidates) }
  else
    match score s.candidates (attrs.filter (fun a => a ∉ s.asked_attributes)) with
    | none =>
        { s with status := SessionStatus.COMPLETED
                 current_question := none
                 result := some (rankResult cfg s.candidates) }
    | some a =>
        { s with current_question := some (phraseQuestion s.candidates a s.next_qid)
                 asked_attributes := s.asked_attributes ++ [a]
                 questions_emitted := s.questions_emitted + 1
                 next_qid := s.next_qid + 1 }

/-- Modelled from the spec: `start()` (§4.3) — fails only on an empty
catalog; otherwise seeds the session with the full catalog, confidence
`1/|catalog|`, status `ACTIVE`, then immediately performs one
scorer+phraser cycle (completing at once if the Termination Policy already
fires). -/
def startSession (cfg : EngineConfig) (attrs : List String)
    (catalog : List MedicineRecord) : Option EngineSession :=
  if catalog.isEmpty then none
  else some (advance cfg attrs
    { candidates := catalog
      asked_attributes := []
      answers := []
      confidence := recomputeConfidence catalog
      status := SessionStatus.ACTIVE
      current_question := none
      questions_emitted := 0
      result := none
      next_qid := 1 })

/-- The error taxonomy of §7 relevant to the session operations. -/
inductive ApiError where
  | NotFound
  | InvalidAnswer
deriving DecidableEq, Repr

/-- Modelled from the spec: `submit_answer(session_id, question_id,
chosen_option)` (§4.3) — requires the session `ACTIVE` and `question_id`
matching the most recently issued question, and `chosen_option` among that
question's options, rejecting with `InvalidAnswer` otherwise; on a valid
answer filters the candidates, appends to `answers`, adds the attribute to
`asked_attributes`, recomputes the confidence, then evaluates the
Termination Policy / next-question cycle. -/
def stepAnswer (cfg : EngineConfig) (attrs : List String)
    (s : EngineSession) (qid chosen : String) :
    Except ApiError EngineSession :=
  match s.status, s.current_question with
  | SessionStatus.ACTIVE, some q =>
    if qid = q.question_id ∧ chosen ∈ q.options then
      let cands := filterCandidates s.candidates q.target_attribute chosen
      Except.ok (advance cfg attrs
        { s with candidates := cands
                 answers := s.answers ++ [(qid, chosen)]
                 asked_attributes :=
                   if q.target_attribute ∈ s.asked_attributes then
                     s.asked_attributes
                   else s.asked_attributes ++ [q.target_attribute]
                 confidence := recomputeConfidence cands })
    else Except.error ApiError.InvalidAnswer
  | _, _ => Except.error ApiError.NotFound

/-- Replays a sequence of `(question_id, chosen_option)` submissions against
a session; a rejected submission leaves the session unchanged (§7: surfaced,
session state unchanged). -/
def runAnswers (cfg : EngineConfig) (attrs : List String)
    (s : EngineSession) (evs : List (String × String)) : EngineSession :=
  evs.foldl (fun st e =>
    match stepAnswer cfg attrs st e.1 e.2 with
    | Except.ok st' => st'
    | Except.error _ => st) s

/-- Modelled from the spec: a whole replayed session — `start()` followed by
a sequence of submissions (§8, determinism property). -/
def runSession (cfg : EngineConfig) (attrs : List String)
    (catalog : List MedicineRecord) (evs : List (String × String)) :
    Option EngineSession :=
  (startSession cfg attrs catalog).map (fun s => runAnswers cfg attrs s evs)

/-! ## Session store

Modelled from the spec (§6, §4.3): process-wide keyed storage of sessions. -/

/-- Modelled from the spec: the ephemeral keyed session store
(`session_id → Session`). -/
def SessionStore : Type := List (String × EngineSession)

/-- Look a session up by id. -/
def storeGet (st : SessionStore) (sid : String) : Option EngineSession :=
  (st.find? (fun e => e.1 = sid)).map Prod.snd

/-- Modelled from the spec: `end(session_id)` (§6) — idempotent, releases
the session from the store. -/
def endSession (st : SessionStore) (sid : String) : SessionStore :=
  st.filter (fun e => ¬ e.1 = sid)

/-- What `get(session_id)` returns: the current question while `ACTIVE`, or
the frozen result once `COMPLETED`. -/
inductive GetResponse where
  | question (q : Option Question)
  | result (r : Option RankedResult)
deriving DecidableEq, Repr

/-- Modelled from the spec: `get(session_id)` (§4.3) — read-only; returns
the current question (`ACTIVE`) or the frozen result (`COMPLETED`); fails
with `NotFound` when the session is absent or `EXPIRED`. -/
def getSession (st : SessionStore) (sid : String) :
    Except ApiError GetResponse :=
  match storeGet st sid with
  | none => Except.error ApiError.NotFound
  | some s =>
    match s.status with
    | SessionStatus.ACTIVE => Except.ok (GetResponse.question s.current_question)
    | SessionStatus.COMPLETED => Except.ok (GetResponse.result s.result)
    | SessionStatus.EXPIRED => Except.error ApiError.NotFound

/-- Update the session stored under `sid`. -/
def storeSet (st : SessionStore) (sid : String) (s : EngineSession) :
    SessionStore :=
  st.map (fun e => if e.1 = sid then (sid, s) else e)

/-- Modelled from the spec: the store-level answer operation — absent id
gives `NotFound`; a rejected submission surfaces the error and leaves the
store unchanged; a valid one writes the updated session back. -/
def submitStore (cfg : EngineConfig) (attrs : List String)
    (st : SessionStore) (sid qid chosen : String) :
    SessionStore × Except ApiError EngineSession :=
  match storeGet st sid with
  | none => (st, Except.error ApiError.NotFound)
  | some s =>
    match stepAnswer cfg attrs s qid chosen with
    | Except.error e => (st, Except.error e)
    | Except.ok s' => (storeSet st sid s', Except.ok s')

/-! ## Concrete example data (README demo catalog shape), used by witnesses -/

/-- A four-medicine demo catalog in the shape of the README's sample data:
two share `box_primary_color = red`, two share `blue`, with a second
attribute `pill_shape`. -/
def exCatalog : List MedicineRecord :=
  [⟨"1", "Panadol Extra",
    [("box_primary_color", "red"), ("pill_shape", "round")]⟩,
   ⟨"2", "Brufen 400",
    [("box_primary_color", "red"), ("pill_shape", "oval")]⟩,
   ⟨"3", "Augmentin 1g",
    [("box_primary_color", "blue"), ("pill_shape", "round")]⟩,
   ⟨"4", "Cataflam 50",
    [("box_primary_color", "blue"), ("pill_shape", "capsule")]⟩]

/-- The fixed declared attribute order of the demo catalog. -/
def exAttrs : List String := ["box_primary_color", "pill_shape"]

/-- The default configuration: 3 questions maximum, 0.90 confidence
threshold, 3 alternatives. -/
def exConfig : EngineConfig := ⟨3, 9 / 10, 3⟩

/-- A concrete emitted question over the demo catalog. -/
def exQuestion : Question :=
  { question_id := "q1"
    target_attribute := "pill_shape"
    prompt_text := "What is the pill_shape of the medicine?"
    options := ["oval", "round", "capsule", notSure] }

/-- A concrete ACTIVE session over the demo catalog with `exQuestion`
pending. -/
def exSession : EngineSession :=
  { candidates := exCatalog
    asked_attributes := ["pill_shape"]
    answers := []
    confidence := 1 / 4
    status := SessionStatus.ACTIVE
    current_question := some exQuestion
    questions_emitted := 1
    result := none
    next_qid := 2 }

/-! ## Helper lemmas about `QuestionInterface` runs -/

/-- The invariant maintained by `QuestionInterface`: any selected option
belongs to the currently displayed question, and a displayed question
implies a known session id. -/
def qiInv (s : QIState) : Prop :=
  (∀ o, s.selected = some o →
    ∃ q, s.question = some q ∧ o ∈ q.options) ∧
  (s.question.isSome → s.sessionId.isSome)

/-- The session invariant behind C4: the number of emitted questions equals
the size of `asked_attributes` (which lists asked attributes in emission
order), that size never exceeds the configured maximum, no attribute
repeats, and the pending question (if any) targets an attribute already
recorded as asked. -/
def sessionInv (maxQ : Nat) (s : EngineSession) : Prop :=
  s.questions_emitted = s.asked_attributes.length ∧
  s.asked_attributes.length ≤ maxQ ∧
  s.asked_attributes.Nodup ∧
  ∀ q, s.current_question = some q →
    q.target_attribute ∈ s.asked_attributes

lemma qiStep_inv {s : QIState} (e : QIEvent) (h : qiInv s) :
    qiInv (qiStep s e) := by
  obtain ⟨hsel, hsid⟩ := h
  cases e with
  | bootLoaded sid q asked =>
    simp only [qiStep]
    by_cases hguard : s.sessionId = none ∨ s.question = none
    · rw [if_pos hguard]
      have hqnone : s.question = none := by
        rcases hguard with h1 | h1
        · cases hq : s.question with
          | none => rfl
          | some q0 =>
            have h2 := hsid (by rw [hq]; rfl)
            rw [h1] at h2
            simp at h2
        · exact h1
      have hselnone : s.selected = none := by
        cases hs : s.selected with
        | none => rfl
        | some o =>
          obtain ⟨q0, hq0, _⟩ := hsel o hs
          rw [hqnone] at hq0
          cases hq0
      constructor
      · intro o ho
        dsimp only at ho
        rw [hselnone] at ho
        cases ho
      · intro _
        rfl
    · rw [if_neg hguard]
      exact ⟨hsel, hsid⟩
  | clickOption o =>
    simp only [qiStep]
    cases hq : s.question with
    | none => exact ⟨hsel, hsid⟩
    | some q =>
      dsimp only
      by_cases hmem : o ∈ q.options
      · rw [if_pos hmem]
        constructor
        · intro o' ho'
          dsimp only at ho'
          cases ho'
          exact ⟨q, rfl, hmem⟩
        · intro _
          exact hsid (by rw [hq]; rfl)
      · rw [if_neg hmem]
        exact ⟨hsel, hsid⟩
  | questionReceived q asked =>
    simp only [qiStep]
    cases hid : s.sessionId with
    | none => exact ⟨hsel, hsid⟩
    | some sid =>
      cases hs : s.selected with
      | none => exact ⟨hsel, hsid⟩
      | some o =>
        dsimp only
        constructor
        · intro o' ho'
          dsimp only at ho'
          cases ho'
        · intro _
          rfl

lemma qiRun_inv {s : QIState} (evs : List QIEvent) (h : qiInv s) :
    qiInv (qiRun s evs) := by
  induction evs generalizing s with
  | nil => exact h
  | cons e t ih => exact ih (qiStep_inv e h)

/-! ## Helper lemmas about `advance` and `stepAnswer` -/

lemma advance_candidates (cfg : EngineConfig) (attrs : List String)
    (s : EngineSession) : (advance cfg attrs s).candidates = s.candidates := by
  unfold advance
  split
  · rfl
  · split <;> rfl

lemma advance_answers (cfg : EngineConfig) (attrs : List String)
    (s : EngineSession) : (advance cfg attrs s).answers = s.answers := by
  unfold advance
  split
  · rfl
  · split <;> rfl

lemma advance_confidence (cfg : EngineConfig) (attrs : List String)
    (s : EngineSession) : (advance cfg attrs s).confidence = s.confidence := by
  unfold advance
  split
  · rfl
  · split <;> rfl

lemma advance_asked_mem (cfg : EngineConfig) (attrs : List String)
    (s : EngineSession) {a : String} (h : a ∈ s.asked_attributes) :
    a ∈ (advance cfg attrs s).asked_attributes := by
  unfold advance
  split
  · exact h
  · split
    · exact h
    · exact List.mem_append_left _ h

lemma filterCandidates_length_le (cands : List MedicineRecord)
    (attr chosen : String) :
    (filterCandidates cands attr chosen).length ≤ cands.length := by
  unfold filterCandidates
  split
  · exact le_rfl
  · exact List.length_filter_le _ _

lemma stepAnswer_ok_candidates {cfg : EngineConfig} {attrs : List String}
    {s : EngineSession} {qid chosen : String} {s' : EngineSession}
    (h : stepAnswer cfg attrs s qid chosen = Except.ok s') :
    ∃ q, s.current_question = some q ∧
      s'.candidates = filterCandidates s.candidates q.target_attribute chosen := by
  unfold stepAnswer at h
  split at h
  · rename_i q hst hcq
    split at h
    · cases h
      exact ⟨q, hcq, advance_candidates _ _ _⟩
    · cases h
  · cases h

lemma stepAnswer_ok_length {cfg : EngineConfig} {attrs : List String}
    {s : EngineSession} {qid chosen : String} {s' : EngineSession}
    (h : stepAnswer cfg attrs s qid chosen = Except.ok s') :
    s'.candidates.length ≤ s.candidates.length := by
  obtain ⟨q, _, hc⟩ := stepAnswer_ok_candidates h
  rw [hc]
  exact filterCandidates_length_le _ _ _

lemma runAnswers_cons (cfg : EngineConfig) (attrs : List String)
    (s : EngineSession) (e : String × String) (t : List (String × String)) :
    runAnswers cfg attrs s (e :: t) =
      runAnswers cfg attrs
        (match stepAnswer cfg attrs s e.1 e.2 with
         | Except.ok s' => s'
         | Except.error _ => s) t := rfl

lemma runAnswers_length_le (cfg : EngineConfig) (attrs : List String)
    (s : EngineSession) (evs : List (String × String)) :
    (runAnswers cfg attrs s evs).candidates.length ≤ s.candidates.length := by
  induction evs generalizing s with
  | nil => exact le_rfl
  | cons e t ih =>
    rw [runAnswers_cons]
    cases h : stepAnswer cfg attrs s e.1 e.2 with
    | error err => exact ih s
    | ok s' =>
      calc (runAnswers cfg attrs s' t).candidates.length
          ≤ s'.candidates.length := ih s'
        _ ≤ s.candidates.length := stepAnswer_ok_length h

/-! ## Helper lemmas about the scorer: the integer weight `Π nᵢ ^ nᵢ`
tracks the real-valued information gain -/

lemma presentSizes_pos (cands : List MedicineRecord) (a : String) :
    ∀ k ∈ presentSizes cands a, 0 < k := by
  intro k hk
  obtain ⟨v, hv, rfl⟩ := List.mem_map.mp hk
  have hv' := List.mem_dedup.mp hv
  obtain ⟨m, hm, hma⟩ := List.mem_filterMap.mp hv'
  apply List.length_pos_of_mem (a := m)
  exact List.mem_filter.mpr ⟨hm, by simp [hma]⟩

lemma groupSizes_pos (cands : List MedicineRecord) (a : String) :
    ∀ k ∈ groupSizes cands a, 0 < k := by
  intro k hk
  unfold groupSizes at hk
  split at hk
  · exact presentSizes_pos cands a k hk
  · rename_i habs
    rcases List.mem_append.mp hk with h | h
    · exact presentSizes_pos cands a k h
    · rw [List.mem_singleton.mp h]
      exact Nat.pos_of_ne_zero habs

lemma weightOf_pos {l : List Nat} (h : ∀ k ∈ l, 0 < k) : 0 < weightOf l := by
  induction l with
  | nil => simp [weightOf]
  | cons k t ih =>
    have hk := h k (List.mem_cons_self _ _)
    have ht := ih (fun x hx => h x (List.mem_cons_of_mem _ hx))
    unfold weightOf at *
    simp only [List.map_cons, List.prod_cons]
    exact Nat.mul_pos (pow_pos hk k) ht

lemma gainWeight_pos (cands : List MedicineRecord) (a : String) :
    0 < gainWeight cands a :=
  weightOf_pos (groupSizes_pos cands a)

/-- `Σ nᵢ · log2 nᵢ = log2 (Π nᵢ ^ nᵢ)` over positive group sizes. -/
lemma sum_logb_weightOf {l : List Nat} (h : ∀ k ∈ l, 0 < k) :
    (l.map (fun k : ℕ => (k : ℝ) * Real.logb 2 k)).sum =
      Real.logb 2 (weightOf l) := by
  induction l with
  | nil => simp [weightOf]
  | cons k t ih =>
    have hk : 0 < k := h k (List.mem_cons_self _ _)
    have ht : ∀ x ∈ t, 0 < x := fun x hx => h x (List.mem_cons_of_mem _ hx)
    have hw : 0 < weightOf t := weightOf_pos ht
    have hkr : (0 : ℝ) < (k : ℝ) := by exact_mod_cast hk
    have hwr : (0 : ℝ) < (weightOf t : ℝ) := by exact_mod_cast hw
    have hcast : ((weightOf (k :: t) : ℕ) : ℝ) =
        ((k : ℝ) ^ k) * (weightOf t : ℝ) := by
      unfold weightOf
      simp only [List.map_cons, List.prod_cons]
      push_cast
      ring
    simp only [List.map_cons, List.sum_cons, ih ht]
    rw [hcast, Real.logb_mul (ne_of_gt (pow_pos hkr k)) (ne_of_gt hwr),
      Real.logb_pow]

/-- The gain formula rewritten over the integer weight:
`gain = (log2 (n^n) − log2 (Π nᵢ^nᵢ)) / n`. -/
lemma realGain_eq (cands : List MedicineRecord) (a : String)
    (hn : 0 < cands.length) :
    realGain cands a =
      (Real.logb 2 ((cands.length ^ cands.length : ℕ) : ℝ) -
        Real.logb 2 (gainWeight cands a)) / cands.length := by
  have hfac : ∀ (l : List ℕ) (n : ℝ),
      (l.map (fun k : ℕ => ((k : ℝ) / n) * Real.logb 2 k)).sum =
        (l.map (fun k : ℕ => (k : ℝ) * Real.logb 2 k)).sum / n := by
    intro l n
    induction l with
    | nil => simp
    | cons k t ih =>
      rw [List.map_cons, List.map_cons, List.sum_cons, List.sum_cons, ih,
        add_div, div_mul_eq_mul_div]
  have hne : (cands.length : ℝ) ≠ 0 := by
    exact_mod_cast Nat.pos_iff_ne_zero.mp hn
  have hpow : ((cands.length ^ cands.length : ℕ) : ℝ) =
      ((cands.length : ℕ) : ℝ) ^ cands.length := by push_cast; rfl
  unfold realGain gainWeight
  rw [hfac, sum_logb_weightOf (groupSizes_pos cands a), hpow, Real.logb_pow]
  field_simp
  ring

lemma realGain_lt_iff {cands : List MedicineRecord} {a b : String}
    (hn : 2 ≤ cands.length) :
    realGain cands b < realGain cands a ↔
      gainWeight cands a < gainWeight cands b := by
  have hn0 : 0 < cands.length := by omega
  have hnr : (0 : ℝ) < (cands.length : ℝ) := by exact_mod_cast hn0
  have hwa : (0 : ℝ) < (gainWeight cands a : ℝ) := by
    exact_mod_cast gainWeight_pos cands a
  have hwb : (0 : ℝ) < (gainWeight cands b : ℝ) := by
    exact_mod_cast gainWeight_pos cands b
  rw [realGain_eq cands a hn0, realGain_eq cands b hn0,
    div_lt_div_iff_of_pos_right hnr, sub_lt_sub_iff_left,
    Real.logb_lt_logb_iff (by norm_num) hwa hwb, Nat.cast_lt]

lemma realGain_le_iff {cands : List MedicineRecord} {a b : String}
    (hn : 2 ≤ cands.length) :
    realGain cands b ≤ realGain cands a ↔
      gainWeight cands a ≤ gainWeight cands b := by
  rw [← not_lt, ← not_lt, not_iff_not]
  exact realGain_lt_iff hn

lemma realGain_pos_iff {cands : List MedicineRecord} {a : String}
    (hn : 2 ≤ cands.length) :
    0 < realGain cands a ↔
      gainWeight cands a < cands.length ^ cands.length := by
  have hn0 : 0 < cands.length := by omega
  have hnr : (0 : ℝ) < (cands.length : ℝ) := by exact_mod_cast hn0
  have hwa : (0 : ℝ) < (gainWeight cands a : ℝ) := by
    exact_mod_cast gainWeight_pos cands a
  have hpp : (0 : ℝ) < ((cands.length ^ cands.length : ℕ) : ℝ) := by
    exact_mod_cast pow_pos hn0 cands.length
  rw [realGain_eq cands a hn0, lt_div_iff hnr, zero_mul, sub_pos,
    Real.logb_lt_logb_iff (by norm_num) hwa hpp, Nat.cast_lt]

/-! ## Helper lemmas about `bestAttr` and `score` -/

lemma bestAttr_eq_none {cands : List MedicineRecord} {N : Nat} :
    ∀ {u : List String}, bestAttr cands N u = none ↔
      ∀ a ∈ u, ¬ gainWeight cands a < N := by
  intro u
  induction u with
  | nil =>
    constructor
    · intro _ a ha
      cases ha
    · intro _
      rfl
  | cons c t ih =>
    constructor
    · intro h a ha
      unfold bestAttr at h
      by_cases hc : gainWeight cands c < N
      · rw [if_pos hc] at h
        cases ht : bestAttr cands N t with
        | none => rw [ht] at h; cases h
        | some p =>
          obtain ⟨b, wb⟩ := p
          rw [ht] at h
          dsimp only at h
          split at h <;> cases h
      · rw [if_neg hc] at h
        rcases List.mem_cons.mp ha with rfl | ha'
        · exact hc
        · exact ih.mp h a ha'
    · intro h
      unfold bestAttr
      have hc : ¬ gainWeight cands c < N := h c (List.mem_cons_self _ _)
      rw [if_neg hc]
      exact ih.mpr (fun a ha => h a (List.mem_cons_of_mem _ ha))

/-- The selection returned by `bestAttr` carries its own weight, has
positive gain (weight `< N`), attains the minimum weight among the
positive-gain attributes, and every attribute listed before it is either
of non-positive gain or of strictly larger weight (hence strictly smaller
gain): the first-in-declared-order tie-break. -/
lemma bestAttr_spec {cands : List MedicineRecord} {N : Nat} :
    ∀ {u : List String} {a : String} {w : Nat},
      bestAttr cands N u = some (a, w) →
      w = gainWeight cands a ∧ w < N ∧
      (∀ b ∈ u, gainWeight cands b < N → w ≤ gainWeight cands b) ∧
      ∃ u1 u2, u = u1 ++ a :: u2 ∧
        ∀ b ∈ u1, ¬ gainWeight cands b < N ∨ w < gainWeight cands b := by
  intro u
  induction u with
  | nil => intro a w h; cases h
  | cons c t ih =>
    intro a w h
    unfold bestAttr at h
    by_cases hc : gainWeight cands c < N
    · rw [if_pos hc] at h
      cases ht : bestAttr cands N t with
      | none =>
        rw [ht] at h
        simp only [Option.some.injEq, Prod.mk.injEq] at h
        obtain ⟨rfl, rfl⟩ := h
        refine ⟨rfl, hc, ?_, [], t, rfl, by intro b hb; cases hb⟩
        intro b hb hbN
        rcases List.mem_cons.mp hb with rfl | hb'
        · exact le_rfl
        · exact absurd hbN (bestAttr_eq_none.mp ht b hb')
      | some p =>
        obtain ⟨b0, wb⟩ := p
        rw [ht] at h
        dsimp only at h
        by_cases hlt : wb < gainWeight cands c
        · rw [if_pos hlt] at h
          simp only [Option.some.injEq, Prod.mk.injEq] at h
          obtain ⟨rfl, rfl⟩ := h
          obtain ⟨hw, hwN, hmin, u1, u2, hdec, hbefore⟩ := ih ht
          refine ⟨hw, hwN, ?_, c :: u1, u2, by simp [hdec], ?_⟩
          · intro b hb hbN
            rcases List.mem_cons.mp hb with rfl | hb'
            · exact le_of_lt hlt
            · exact hmin b hb' hbN
          · intro b hb
            rcases List.mem_cons.mp hb with rfl | hb'
            · exact Or.inr hlt
            · exact hbefore b hb'
        · rw [if_neg hlt] at h
          simp only [Option.some.injEq, Prod.mk.injEq] at h
          obtain ⟨rfl, rfl⟩ := h
          obtain ⟨hw, hwN, hmin, _, _, _, _⟩ := ih ht
          refine ⟨rfl, hc, ?_, [], t, rfl, by intro b hb; cases hb⟩
          intro b hb hbN
          rcases List.mem_cons.mp hb with rfl | hb'
          · exact le_rfl
          · exact le_trans (le_of_not_lt hlt) (hmin b hb' hbN)
    · rw [if_neg hc] at h
      obtain ⟨hw, hwN, hmin, u1, u2, hdec, hbefore⟩ := ih h
      refine ⟨hw, hwN, ?_, c :: u1, u2, by simp [hdec], ?_⟩
      · intro b hb hbN
        rcases List.mem_cons.mp hb with rfl | hb'
        · exact absurd hbN hc
        · exact hmin b hb' hbN
      · intro b hb
        rcases List.mem_cons.mp hb with rfl | hb'
        · exact Or.inl hc
        · exact hbefore b hb'

lemma score_mem {cands : List MedicineRecord} {u : List String} {a : String}
    (h : score cands u = some a) : a ∈ u := by
  unfold score at h
  split at h
  · cases h
  · obtain ⟨⟨a2, w⟩, hb, h2⟩ := Option.map_eq_some'.mp h
    obtain ⟨_, _, _, u1, u2, hdec, _⟩ := bestAttr_spec hb
    dsimp only at h2
    subst h2
    rw [hdec]
    exact List.mem_append_right _ (List.mem_cons_self _ _)

/-! ## Helper lemmas: the session invariant of C4 -/

lemma advance_inv {cfg : EngineConfig} {attrs : List String}
    {s : EngineSession} (h : sessionInv cfg.max_questions s) :
    sessionInv cfg.max_questions (advance cfg attrs s) := by
  obtain ⟨hemit, hbound, hnodup, hq⟩ := h
  unfold advance
  split
  · exact ⟨hemit, hbound, hnodup, by intro q hq'; cases hq'⟩
  · rename_i hstop
    cases hscore : score s.candidates
        (attrs.filter (fun a => a ∉ s.asked_attributes)) with
    | none => exact ⟨hemit, hbound, hnodup, by intro q hq'; cases hq'⟩
    | some a =>
      have hmem := score_mem hscore
      have hnotin : a ∉ s.asked_attributes := by
        have := List.of_mem_filter hmem
        simpa using this
      have hlt : s.asked_attributes.length < cfg.max_questions := by
        unfold stopEarly at hstop
        simp only [decide_eq_true_eq, Bool.or_eq_true] at hstop
        push_neg at hstop
        omega
      refine ⟨?_, ?_, ?_, ?_⟩
      · dsimp only
        rw [List.length_append, List.length_singleton, hemit]
      · dsimp only
        rw [List.length_append, List.length_singleton]
        omega
      · dsimp only
        simp [List.nodup_append, hnodup, hnotin]
      · intro q hq'
        dsimp only at hq' ⊢
        cases hq'
        exact List.mem_append_right _ (List.mem_cons_self _ _)

lemma stepAnswer_inv {cfg : EngineConfig} {attrs : List String}
    {s : EngineSession} {qid chosen : String} {s' : EngineSession}
    (h : sessionInv cfg.max_questions s)
    (hok : stepAnswer cfg attrs s qid chosen = Except.ok s') :
    sessionInv cfg.max_questions s' := by
  unfold stepAnswer at hok
  split at hok
  · rename_i q hst hcq
    split at hok
    · cases hok
      apply advance_inv
      obtain ⟨hemit, hbound, hnodup, hq⟩ := h
      have hmem := hq q hcq
      refine ⟨?_, ?_, ?_, ?_⟩
      · dsimp only
        rw [if_pos hmem]
        exact hemit
      · dsimp only
        rw [if_pos hmem]
        exact hbound
      · dsimp only
        rw [if_pos hmem]
        exact hnodup
      · intro q' hq'
        dsimp only at hq' ⊢
        rw [if_pos hmem]
        exact hq q' hq'
    · cases hok
  · cases hok

lemma startSession_inv {cfg : EngineConfig} {attrs : List String}
    {catalog : List MedicineRecord} {s : EngineSession}
    (h : startSession cfg attrs catalog = some s) :
    sessionInv cfg.max_questions s := by
  unfold startSession at h
  split at h
  · cases h
  · cases h
    apply advance_inv
    exact ⟨rfl, Nat.zero_le _, List.nodup_nil, by intro q hq; cases hq⟩

lemma runAnswers_inv {cfg : EngineConfig} {attrs : List String}
    (s : EngineSession) (evs : List (String × String))
    (h : sessionInv cfg.max_questions s) :
    sessionInv cfg.max_questions (runAnswers cfg attrs s evs) := by
  induction evs generalizing s with
  | nil => exact h
  | cons e t ih =>
    rw [runAnswers_cons]
    cases hstep : stepAnswer cfg attrs s e.1 e.2 with
    | error err => exact ih s h
    | ok s' => exact ih s' (stepAnswer_inv h hstep)

/-! ## Theorems -/

/-- C1: the Discrimination Scorer scores each unused attribute by
`gain = log2 n − Σ (nᵢ/n)·log2 nᵢ` over the partition groups (`realGain`
is literally that formula, with a group for absent values); it returns
`none` whenever `n ≤ 1`, the unused-attribute list is empty, or no unused
attribute has strictly positive gain, and otherwise selects an attribute
of maximum gain. -/
theorem C1_scorer_gain_selection (cands : List MedicineRecord)
    (unused : List String) :
    (cands.length ≤ 1 → score cands unused = none) ∧
    (unused = [] → score cands unused = none) ∧
    ((∀ a ∈ unused, realGain cands a ≤ 0) → score cands unused = none) ∧
    (∀ a, score cands unused = some a →
      a ∈ unused ∧ 0 < realGain cands a ∧
      ∀ b ∈ unused, realGain cands b ≤ realGain cands a) := by
  refine ⟨?_, ?_, ?_, ?_⟩
  · intro h
    unfold score
    rw [if_pos h]
  · intro h
    subst h
    unfold score
    split <;> rfl
  · intro h
    by_cases hn : cands.length ≤ 1
    · unfold score
      rw [if_pos hn]
    · have hn2 : 2 ≤ cands.length := by omega
      unfold score
      rw [if_neg hn, bestAttr_eq_none.mpr]
      · rfl
      · intro a ha
        have := h a ha
        rw [← not_lt] at this
        intro hWN
        exact this ((realGain_pos_iff hn2).mpr hWN)
  · intro a ha
    by_cases hn : cands.length ≤ 1
    · unfold score at ha
      rw [if_pos hn] at ha
      cases ha
    · have hn2 : 2 ≤ cands.length := by omega
      unfold score at ha
      rw [if_neg hn] at ha
      obtain ⟨⟨a2, w⟩, hb, h2⟩ := Option.map_eq_some'.mp ha
      dsimp only at h2
      subst h2
      obtain ⟨hw, hwN, hmin, u1, u2, hdec, _⟩ := bestAttr_spec hb
      subst hw
      have hmem : a2 ∈ unused := by
        rw [hdec]
        exact List.mem_append_right _ (List.mem_cons_self _ _)
      have hpos : 0 < realGain cands a2 := (realGain_pos_iff hn2).mpr hwN
      refine ⟨hmem, hpos, ?_⟩
      intro b hbmem
      by_cases hbN : gainWeight cands b < cands.length ^ cands.length
      · exact (realGain_le_iff hn2).mpr (hmin b hbmem hbN)
      · have hble : realGain cands b ≤ 0 := by
          rw [← not_lt]
          intro hbpos
          exact hbN ((realGain_pos_iff hn2).mp hbpos)
        exact le_trans hble (le_of_lt hpos)

/-- Witness for C1: on the four-medicine demo catalog the scorer selects
`"pill_shape"`, which therefore belongs to the unused list, has strictly
positive gain, and maximises the gain formula over both attributes. -/
theorem C1_scorer_witness :
    "pill_shape" ∈ exAttrs ∧ 0 < realGain exCatalog "pill_shape" ∧
    ∀ b ∈ exAttrs,
      realGain exCatalog b ≤ realGain exCatalog "pill_shape" :=
  (C1_scorer_gain_selection exCatalog exAttrs).2.2.2 "pill_shape"
    (by decide)

/-- C7: replaying the same answer sequence against the same catalog and
configuration is deterministic (the engine is a pure function of its
inputs), and ties in attribute gain are broken by the attribute appearing
first in the fixed declared attribute order: every attribute listed before
the selected one has strictly smaller gain, so no equal-gain attribute
precedes it. -/
theorem C7_deterministic_replay_and_tiebreak :
    (∀ (cfg : EngineConfig) (attrs : List String)
        (catalog : List MedicineRecord)
        (evs1 evs2 : List (String × String)), evs1 = evs2 →
      runSession cfg attrs catalog evs1 =
        runSession cfg attrs catalog evs2) ∧
    (∀ (cands : List MedicineRecord) (unused : List String) (a : String),
      score cands unused = some a →
      ∃ u1 u2, unused = u1 ++ a :: u2 ∧
        ∀ b ∈ u1, realGain cands b < realGain cands a) := by
  constructor
  · intro cfg attrs catalog evs1 evs2 h
    rw [h]
  · intro cands unused a ha
    have hn2 : 2 ≤ cands.length := by
      by_contra hn
      unfold score at ha
      rw [if_pos (by omega)] at ha
      cases ha
    unfold score at ha
    rw [if_neg (by omega)] at ha
    obtain ⟨⟨a2, w⟩, hb, h2⟩ := Option.map_eq_some'.mp ha
    dsimp only at h2
    subst h2
    obtain ⟨hw, hwN, hmin, u1, u2, hdec, hbefore⟩ := bestAttr_spec hb
    subst hw
    have hpos : 0 < realGain cands a2 := (realGain_pos_iff hn2).mpr hwN
    refine ⟨u1, u2, hdec, ?_⟩
    intro b hb1
    rcases hbefore b hb1 with hbN | hblt
    · have hble : realGain cands b ≤ 0 := by
        rw [← not_lt]
        intro hbpos
        exact hbN ((realGain_pos_iff hn2).mp hbpos)
      exact lt_of_le_of_lt hble hpos
    · exact (realGain_lt_iff hn2).mpr hblt

/-- Witness for C7: determinism instantiated on a concrete replay, and the
tie-break decomposition for the concrete selection `"pill_shape"`: the
attribute listed before it (`"box_primary_color"`) has strictly smaller
gain. -/
theorem C7_deterministic_witness :
    runSession exConfig exAttrs exCatalog [("q1", "round")] =
      runSession exConfig exAttrs exCatalog [("q1", "round")] ∧
    ∃ u1 u2, exAttrs = u1 ++ "pill_shape" :: u2 ∧
      ∀ b ∈ u1,
        realGain exCatalog b < realGain exCatalog "pill_shape" :=
  ⟨C7_deterministic_replay_and_tiebreak.1 exConfig exAttrs exCatalog
      [("q1", "round")] [("q1", "round")] rfl,
   C7_deterministic_replay_and_tiebreak.2 exCatalog exAttrs "pill_shape"
      (by decide)⟩

/-- C4: in every session (a `start()` followed by any replayed submission
sequence) the number of questions emitted equals the size of
`asked_attributes`, that size never exceeds the configured max-questions
bound, and no attribute is ever asked twice (`asked_attributes`, which
lists the asked attributes in emission order, has no duplicate). -/
theorem C4_question_budget (cfg : EngineConfig) (attrs : List String)
    (catalog : List MedicineRecord) (evs : List (String × String))
    (s0 : EngineSession)
    (hstart : startSession cfg attrs catalog = some s0) :
    (runAnswers cfg attrs s0 evs).questions_emitted =
      (runAnswers cfg attrs s0 evs).asked_attributes.length ∧
    (runAnswers cfg attrs s0 evs).asked_attributes.length ≤
      cfg.max_questions ∧
    (runAnswers cfg attrs s0 evs).asked_attributes.Nodup := by
  have h := @runAnswers_inv cfg attrs s0 evs (startSession_inv hstart)
  exact ⟨h.1, h.2.1, h.2.2.1⟩

/-- Witness for C4: the concrete demo session, started and replayed with
one answer. -/
theorem C4_question_budget_witness :
    ∃ s0, startSession exConfig exAttrs exCatalog = some s0 ∧
      ((runAnswers exConfig exAttrs s0 [("q1", "round")]).questions_emitted =
        (runAnswers exConfig exAttrs s0
          [("q1", "round")]).asked_attributes.length ∧
       (runAnswers exConfig exAttrs s0
          [("q1", "round")]).asked_attributes.length ≤
        exConfig.max_questions ∧
       (runAnswers exConfig exAttrs s0
          [("q1", "round")]).asked_attributes.Nodup) :=
  ⟨_, rfl, C4_question_budget exConfig exAttrs exCatalog
    [("q1", "round")] _ rfl⟩

/-- C10: `LanguageProvider` initializes the language to the stored
`'selectedLanguage'` value only when that value is exactly `'ar'` or
`'en'`, and to `'en'` for every other stored value (including absent); and
the provided `dir` equals `'rtl'` exactly when the language is `'ar'` and
`'ltr'` otherwise. -/
theorem C10_languageProvider_init_and_dir :
    (∀ saved : Option String,
      (saved = some "ar" → initLanguage saved = Language.ar) ∧
      (saved = some "en" → initLanguage saved = Language.en) ∧
      (saved ≠ some "ar" → saved ≠ some "en" →
        initLanguage saved = Language.en)) ∧
    (∀ lang : Language, dirOf lang = "rtl" ↔ lang = Language.ar) ∧
    (∀ lang : Language, lang ≠ Language.ar → dirOf lang = "ltr") := by
  refine ⟨fun saved => ⟨?_, ?_, ?_⟩, fun lang => ?_, fun lang h => ?_⟩
  · intro h; subst h; rfl
  · intro h; subst h; rfl
  · intro h1 h2
    simp only [initLanguage, if_neg h1, if_neg h2]
  · cases lang <;> simp [dirOf]
  · cases lang
    · rfl
    · exact absurd rfl h

/-- Witness for C10 at concrete inputs: stored `'ar'`, a stored junk value,
and the `dir` of `'en'`. -/
theorem C10_languageProvider_witness :
    initLanguage (some "ar") = Language.ar ∧
    initLanguage (some "fr") = Language.en ∧
    dirOf Language.en = "ltr" :=
  ⟨(C10_languageProvider_init_and_dir.1 (some "ar")).1 rfl,
   (C10_languageProvider_init_and_dir.1 (some "fr")).2.2
     (by decide) (by decide),
   C10_languageProvider_init_and_dir.2.2 Language.en (by decide)⟩

/-- C9: `jsonFetch` resolves with the parsed JSON body when `res.ok` is
true, and otherwise rejects with an `Error` whose message contains the
response's status code and status text; every helper built on it either
yields a parsed value or an error message, never an unparsed or partial
result. -/
theorem C9_jsonFetch_ok_or_error {α : Type} (parse : String → Option α)
    (res : HttpResponse) :
    (res.ok = true → ∀ v, parse res.body = some v →
      jsonFetch parse res = FetchOutcome.resolved v) ∧
    (res.ok = false → ∃ msg,
      jsonFetch parse res = FetchOutcome.rejected msg ∧
      containsSub msg (toString res.status) ∧
      containsSub msg res.statusText) ∧
    ((∃ v, jsonFetch parse res = FetchOutcome.resolved v) ∨
     (∃ msg, jsonFetch parse res = FetchOutcome.rejected msg)) := by
  refine ⟨?_, ?_, ?_⟩
  · intro hok v hv
    simp [jsonFetch, hok, hv]
  · intro hok
    refine ⟨requestFailedMessage res, by simp [jsonFetch, hok], ?_, ?_⟩
    · exact ⟨"Request failed: ",
        " " ++ res.statusText ++
          (if res.body = "" then "" else " - " ++ res.body),
        by simp [requestFailedMessage, String.append_assoc]⟩
    · exact ⟨"Request failed: " ++ toString res.status ++ " ",
        (if res.body = "" then "" else " - " ++ res.body),
        by simp [requestFailedMessage, String.append_assoc]⟩
  · cases h : jsonFetch parse res with
    | resolved v => exact Or.inl ⟨v, rfl⟩
    | rejected msg => exact Or.inr ⟨msg, rfl⟩

/-- Witness for C9 at a concrete 404 response and a concrete ok response. -/
theorem C9_jsonFetch_witness :
    (∃ msg, jsonFetch (fun s => some s) ⟨false, 404, "Not Found", "gone"⟩ =
        FetchOutcome.rejected msg ∧
      containsSub msg (toString (404 : Nat)) ∧
      containsSub msg "Not Found") ∧
    jsonFetch (fun s => some s) ⟨true, 200, "OK", "payload"⟩ =
      FetchOutcome.resolved "payload" :=
  ⟨(C9_jsonFetch_ok_or_error (fun s => some s)
      ⟨false, 404, "Not Found", "gone"⟩).2.1 rfl,
   (C9_jsonFetch_ok_or_error (fun s => some s)
      ⟨true, 200, "OK", "payload"⟩).1 rfl "payload" rfl⟩

/-- C8: calling `end()` and then `get()` on the same session id always
yields `NotFound`: `end` releases the session from the store, so a
subsequent `get` finds no entry, regardless of the session's status
(terminal or not) before the `end`. -/
theorem C8_end_then_get_notFound (st : SessionStore) (sid : String) :
    getSession (endSession st sid) sid = Except.error ApiError.NotFound := by
  have h : storeGet (endSession st sid) sid = none := by
    unfold storeGet endSession
    rw [List.find?_eq_none.mpr]
    · rfl
    intro e he
    have := List.of_mem_filter he
    simpa using this
  simp [getSession, h]

/-- C6: a `submit_answer` whose `chosen_option` is not among the current
question's options, or whose `question_id` does not match the most recently
issued question, is rejected with `InvalidAnswer` and leaves the stored
session state unchanged. -/
theorem C6_invalid_answer_rejected (cfg : EngineConfig)
    (attrs : List String) (st : SessionStore)
    (sid qid chosen : String) (s : EngineSession) (q : Question)
    (hs : storeGet st sid = some s)
    (hst : s.status = SessionStatus.ACTIVE)
    (hq : s.current_question = some q)
    (hbad : chosen ∉ q.options ∨ qid ≠ q.question_id) :
    submitStore cfg attrs st sid qid chosen =
      (st, Except.error ApiError.InvalidAnswer) := by
  have hstep : stepAnswer cfg attrs s qid chosen =
      Except.error ApiError.InvalidAnswer := by
    unfold stepAnswer
    rw [hst, hq]
    dsimp only
    rw [if_neg]
    rintro ⟨rfl, hopt⟩
    rcases hbad with h | h
    · exact h hopt
    · exact h rfl
  unfold submitStore
  rw [hs]
  dsimp only
  rw [hstep]

/-- C5: every Answer request the client sends has body exactly
`{session_id, answer}` with the answer among the options of the most
recently displayed question; `handleNext` returns without a request when
no session id or no selected option exists; and the response is handled as
a `"question"`-type payload (updating the shown question and clearing the
selection) or a `"result"`-type payload (navigating with the result). -/
theorem C5_answer_request_wellformed (ρ : Type) (s0 : QIState)
    (hsel0 : s0.selected = none)
    (hinit : s0.question.isSome → s0.sessionId.isSome)
    (evs : List QIEvent) :
    ((qiRun s0 evs).sessionId = none ∨ (qiRun s0 evs).selected = none →
      handleNextRequest (qiRun s0 evs) = none) ∧
    (∀ b, handleNextRequest (qiRun s0 evs) = some b →
      (qiRun s0 evs).sessionId = some b.session_id ∧
      (qiRun s0 evs).selected = some b.answer ∧
      ∃ q, (qiRun s0 evs).question = some q ∧ b.answer ∈ q.options) ∧
    (∀ (s' : QIState) (q : FrontQuestion) (asked : Nat),
      handleResponse s' (AnswerResponse.question (ρ := ρ) q asked) =
        NextAction.show
          { s' with question := some q, questionsAsked := asked,
                    selected := none }) ∧
    (∀ (s' : QIState) (p : ρ),
      handleResponse s' (AnswerResponse.result p) =
        NextAction.navigateToResult p) := by
  have hinv : qiInv (qiRun s0 evs) := by
    apply qiRun_inv
    constructor
    · intro o ho
      rw [hsel0] at ho
      cases ho
    · exact hinit
  refine ⟨?_, ?_, fun s' q asked => rfl, fun s' p => rfl⟩
  · intro hmiss
    unfold handleNextRequest
    rcases hmiss with h | h
    · rw [h]
    · rw [h]
      cases (qiRun s0 evs).sessionId <;> rfl
  · intro b hb
    unfold handleNextRequest at hb
    cases hsid : (qiRun s0 evs).sessionId with
    | none => rw [hsid] at hb; cases hb
    | some sid =>
      cases hselq : (qiRun s0 evs).selected with
      | none => rw [hsid, hselq] at hb; cases hb
      | some sel =>
        rw [hsid, hselq] at hb
        cases hb
        exact ⟨rfl, rfl, hinv.1 sel hselq⟩

/-- Witness for C5: a concrete run — boot resolves with a question, the
user selects `"Red"` — after which `handleNext` sends exactly
`{session_id := "s1", answer := "Red"}`, and `"Red"` is among the
displayed question's options. -/
theorem C5_answer_request_witness :
    handleNextRequest
      (qiRun ⟨none, none, none, 0⟩
        [QIEvent.bootLoaded "s1" ⟨"What color is the box?",
            ["Red", "Blue", notSure]⟩ 0,
         QIEvent.clickOption "Red"]) = some ⟨"s1", "Red"⟩ ∧
    (∃ q, (qiRun (⟨none, none, none, 0⟩ : QIState)
        [QIEvent.bootLoaded "s1" ⟨"What color is the box?",
            ["Red", "Blue", notSure]⟩ 0,
         QIEvent.clickOption "Red"]).question = some q ∧
      "Red" ∈ q.options) := by
  constructor
  · rfl
  · exact ((C5_answer_request_wellformed Unit ⟨none, none, none, 0⟩ rfl
      (by intro h; cases h)
      [QIEvent.bootLoaded "s1" ⟨"What color is the box?",
          ["Red", "Blue", notSure]⟩ 0,
       QIEvent.clickOption "Red"]).2.1 ⟨"s1", "Red"⟩ rfl).2.2

/-- Witness for C6: answering `"purple"` (not an option of the current
question) against a concrete ACTIVE session is rejected with
`InvalidAnswer` and the store is returned unchanged. -/
theorem C6_invalid_answer_witness :
    submitStore exConfig exAttrs [("s1", exSession)] "s1" "q1" "purple" =
      ([("s1", exSession)], Except.error ApiError.InvalidAnswer) :=
  C6_invalid_answer_rejected exConfig exAttrs [("s1", exSession)]
    "s1" "q1" "purple" exSession exQuestion rfl rfl rfl
    (Or.inl (by decide))

/-- C2: for an ACTIVE session and a valid answer, `submit_answer` leaves
the candidate set unchanged on "Not sure" and otherwise keeps exactly the
candidates whose value for the asked attribute equals the chosen option
(dropping candidates lacking the attribute); it appends to `answers`, adds
the attribute to `asked_attributes`, and recomputes
`confidence = 1/|candidates|` (1.0 when exactly one candidate remains). -/
theorem C2_submit_answer_updates (cfg : EngineConfig) (attrs : List String)
    (s : EngineSession) (q : Question) (qid chosen : String)
    (hst : s.status = SessionStatus.ACTIVE)
    (hq : s.current_question = some q)
    (hqid : qid = q.question_id)
    (hopt : chosen ∈ q.options) :
    ∃ s', stepAnswer cfg attrs s qid chosen = Except.ok s' ∧
      (chosen = notSure → s'.candidates = s.candidates) ∧
      (chosen ≠ notSure →
        s'.candidates = s.candidates.filter
          (fun m => attrValue m q.target_attribute = some chosen)) ∧
      s'.answers = s.answers ++ [(qid, chosen)] ∧
      q.target_attribute ∈ s'.asked_attributes ∧
      (s'.candidates.length ≠ 0 →
        s'.confidence = 1 / (s'.candidates.length : ℚ)) ∧
      (s'.candidates.length = 1 → s'.confidence = 1) := by
  have hstep : stepAnswer cfg attrs s qid chosen = Except.ok (advance cfg attrs
      { candidates := filterCandidates s.candidates q.target_attribute chosen
        asked_attributes :=
          if q.target_attribute ∈ s.asked_attributes then s.asked_attributes
          else s.asked_attributes ++ [q.target_attribute]
        answers := s.answers ++ [(qid, chosen)]
        confidence :=
          recomputeConfidence
            (filterCandidates s.candidates q.target_attribute chosen)
        status := SessionStatus.ACTIVE
        current_question := some q
        questions_emitted := s.questions_emitted
        result := s.result
        next_qid := s.next_qid }) := by
    unfold stepAnswer
    rw [hst, hq]
    dsimp only
    rw [if_pos ⟨hqid, hopt⟩]
  refine ⟨_, hstep, ?_, ?_, ?_, ?_, ?_, ?_⟩
  · intro hns
    rw [advance_candidates]
    simp [filterCandidates, hns]
  · intro hns
    rw [advance_candidates]
    simp [filterCandidates, hns]
  · rw [advance_answers]
  · apply advance_asked_mem
    dsimp only
    split
    · assumption
    · exact List.mem_append_right _ (List.mem_singleton.mpr rfl)
  · intro hlen
    rw [advance_confidence, advance_candidates] at *
    dsimp only at *
    unfold recomputeConfidence
    rw [if_neg hlen]
  · intro hlen
    rw [advance_confidence, advance_candidates] at *
    dsimp only at *
    unfold recomputeConfidence
    rw [hlen]
    norm_num

/-- Witness for C2: answering `"round"` to the pending question of a
concrete ACTIVE session. -/
theorem C2_submit_answer_witness :
    ∃ s', stepAnswer exConfig exAttrs exSession "q1" "round" =
        Except.ok s' ∧
      ("round" = notSure → s'.candidates = exSession.candidates) ∧
      ("round" ≠ notSure →
        s'.candidates = exSession.candidates.filter
          (fun m =>
            attrValue m exQuestion.target_attribute = some "round")) ∧
      s'.answers = exSession.answers ++ [("q1", "round")] ∧
      exQuestion.target_attribute ∈ s'.asked_attributes ∧
      (s'.candidates.length ≠ 0 →
        s'.confidence = 1 / (s'.candidates.length : ℚ)) ∧
      (s'.candidates.length = 1 → s'.confidence = 1) :=
  C2_submit_answer_updates exConfig exAttrs exSession exQuestion
    "q1" "round" (by decide) rfl rfl (by decide)

/-- C3: the candidate set never grows: after a valid `submit_answer` its
size is at most the size before, with equality exactly when the chosen
option is "Not sure" or the chosen value is already universal among the
candidates; and across a whole session lifetime (any replayed sequence of
submissions) the size is non-increasing. -/
theorem C3_candidates_nonincreasing (cfg : EngineConfig)
    (attrs : List String) (s : EngineSession) (q : Question)
    (qid chosen : String)
    (hst : s.status = SessionStatus.ACTIVE)
    (hq : s.current_question = some q)
    (hqid : qid = q.question_id)
    (hopt : chosen ∈ q.options) :
    (∀ s', stepAnswer cfg attrs s qid chosen = Except.ok s' →
      s'.candidates.length ≤ s.candidates.length ∧
      (s'.candidates.length = s.candidates.length ↔
        chosen = notSure ∨
        ∀ m ∈ s.candidates,
          attrValue m q.target_attribute = some chosen)) ∧
    ∀ (s₀ : EngineSession) (evs : List (String × String)),
      (runAnswers cfg attrs s₀ evs).candidates.length ≤
        s₀.candidates.length := by
  refine ⟨?_, fun s₀ evs => runAnswers_length_le cfg attrs s₀ evs⟩
  intro s' hok
  obtain ⟨q', hq', hc⟩ := stepAnswer_ok_candidates hok
  rw [hq] at hq'
  cases hq'
  constructor
  · rw [hc]
    exact filterCandidates_length_le _ _ _
  · by_cases hns : chosen = notSure
    · have hceq : s'.candidates = s.candidates := by
        rw [hc]
        unfold filterCandidates
        rw [if_pos hns]
      rw [hceq]
      exact ⟨fun _ => Or.inl hns, fun _ => rfl⟩
    · simp only [hc, filterCandidates, if_neg hns]
      constructor
      · intro hlen
        refine Or.inr ?_
        have hsub := List.filter_sublist
          (l := s.candidates)
          (p := fun m => attrValue m q.target_attribute = some chosen)
        have heq := hsub.eq_of_length hlen
        intro m hm
        have := (List.filter_eq_self.mp heq) m hm
        exact of_decide_eq_true this
      · rintro (h | h)
        · exact absurd h hns
        · congr 1
          apply List.filter_eq_self.mpr
          intro m hm
          exact decide_eq_true (h m hm)

/-- Witness for C3: answering `"Not sure"` to the pending question of a
concrete ACTIVE session. -/
theorem C3_candidates_witness :
    (∀ s', stepAnswer exConfig exAttrs exSession "q1" notSure =
        Except.ok s' →
      s'.candidates.length ≤ exSession.candidates.length ∧
      (s'.candidates.length = exSession.candidates.length ↔
        notSure = notSure ∨
        ∀ m ∈ exSession.candidates,
          attrValue m exQuestion.target_attribute = some notSure)) ∧
    ∀ (s₀ : EngineSession) (evs : List (String × String)),
      (runAnswers exConfig exAttrs s₀ evs).candidates.length ≤
        s₀.candidates.length :=
  C3_candidates_nonincreasing exConfig exAttrs exSession exQuestion
    "q1" notSure (by decide) rfl rfl (by decide)

/-- Witness for C8 on a concrete one-session store (a COMPLETED session,
the case the claim singles out). -/
theorem C8_end_then_get_witness :
    getSession
      (endSession
        [("s1",
          { candidates := []
            asked_attributes := []
            answers := []
            confidence := 0
            status := SessionStatus.COMPLETED
            current_question := none
            questions_emitted := 0
            result := some { success := false, top_match := none,
                             alternatives := [] }
            next_qid := 1 })] "s1") "s1" =
      Except.error ApiError.NotFound :=
  C8_end_then_get_notFound _ "s1"

end ClinTwin
